import Mathlib

/-!
Verification development for the Knowhere vector-index slice: the
`GpuFlatIndexNode` backend (`src/index/gpu/flat_gpu/flat_gpu.cc`) and the
NSG graph-index persistence/build contract (`NSGIO.h` declarations plus the
specification of the Graph Index Engine).  C++ code is shallowly embedded:
stateful methods become explicit state-passing functions, fallible calls
return `Except`/tagged results, machine floats appearing only as opaque
payload are modelled by `Nat`/`Int` values.
-/

namespace Knowhere

/-- Status codes used by the index node contract (knowhere `Status`). -/
inductive Status where
  | success
  | invalid_args
  | invalid_metric_type
  | empty_index
  | not_implemented
  | invalid_binary_set
  | faiss_inner_error
  deriving DecidableEq, Repr

/-- Faiss metric types reachable from `Str2FaissMetricType`. -/
inductive MetricType where
  | L2
  | IP
  deriving DecidableEq, Repr

/-- Model of `faiss::IndexFlat`: dimension, metric, and the flat buffer of
stored vector components (floats modelled as opaque `Nat` payload). -/
structure FaissIndex where
  d : Nat
  metric : MetricType
  xb : List Nat
  deriving DecidableEq, Repr

/-- Model of a knowhere `DataSet`: row count, dimension, flat tensor, ids. -/
structure DataSet where
  rows : Nat
  dim : Nat
  tensor : List Nat
  ids : List Nat
  deriving DecidableEq, Repr

/-- Model of the relevant config fields (`GpuFlatConfig`/`FlatConfig`). -/
structure Config where
  metric_type : String
  k : Nat
  deriving DecidableEq, Repr

/-- Modelled from the spec: `common/metric.h` is not part of the visible
source.  Per the spec, an unsupported metric string makes `Train` fail with
the invalid-metric error; supported metrics are squared L2 and inner
product. -/
def Str2FaissMetricType (s : String) : Except Status MetricType :=
  if s = "L2" then Except.ok MetricType.L2
  else if s = "IP" then Except.ok MetricType.IP
  else Except.error Status.invalid_metric_type

/-- A persisted blob: byte buffer modelled as a list of naturals. -/
abbrev Blob := List Nat

/-- Model of a knowhere `BinarySet`: named opaque binary entries. -/
abbrev BinarySet := List (String × Blob)

/-- `BinarySet::GetByName`: first entry carrying the given name. -/
def getByName (b : BinarySet) (name : String) : Option Blob :=
  (b.find? (fun e => e.1 = name)).map (fun e => e.2)

/-- `BinarySet::Append`: the code appends exactly one named entry. -/
def binarySetAppend (b : BinarySet) (name : String) (data : Blob) : BinarySet :=
  b ++ [(name, data)]

/-- Modelled from the spec: `faiss::write_index` is external; the spec's
Binary Serialization Protocol writes all fields in a fixed order with an
explicit length before any variable-length section. -/
def writeIndex (idx : FaissIndex) : Blob :=
  [idx.d, (match idx.metric with | MetricType.L2 => 0 | MetricType.IP => 1),
   idx.xb.length] ++ idx.xb

/-- Modelled from the spec: `faiss::read_index` is external; the reader
walks the same fixed field order and a malformed stream makes it throw,
modelled as `Except.error`. -/
def readIndex : Blob → Except String FaissIndex
  | d :: m :: len :: rest =>
      if rest.length = len then
        match m with
        | 0 => Except.ok { d := d, metric := MetricType.L2, xb := rest }
        | 1 => Except.ok { d := d, metric := MetricType.IP, xb := rest }
        | _ + 2 => Except.error "unknown metric tag"
      else Except.error "truncated index blob"
  | _ => Except.error "could not read index header"

/-- State of a `GpuFlatIndexNode`: the constructor sets `index_(nullptr)`,
modelled as `none`. -/
structure GpuFlatIndexNode where
  index_ : Option FaissIndex
  deriving DecidableEq, Repr

/-- `IndexEnum::INDEX_FAISS_GPU_IDMAP`, the node's `Type()`. -/
def INDEX_FAISS_GPU_IDMAP : String := "GPU_FAISS_IDMAP"

/-- `GpuFlatIndexNode::Type()`. -/
def GpuFlatIndexNode.type (_ : GpuFlatIndexNode) : String :=
  INDEX_FAISS_GPU_IDMAP

/-- Outcome of a method call: a value, a typed error status with message, or
undefined behaviour from dereferencing a null `index_` (no typed return). -/
inductive ExecResult (α : Type) where
  | ok (a : α)
  | err (st : Status) (msg : String)
  | nullDeref
  deriving DecidableEq, Repr

/-- `GpuFlatIndexNode::Train` (flat_gpu.cc lines 30-40): on a bad metric it
returns the metric error with no state change; otherwise it installs a fresh
`faiss::IndexFlat(dim, metric)`. -/
def GpuFlatIndexNode.train (s : GpuFlatIndexNode) (dataset : DataSet)
    (cfg : Config) : GpuFlatIndexNode × Status :=
  match Str2FaissMetricType cfg.metric_type with
  | Except.error e => (s, e)
  | Except.ok m =>
      ({ index_ := some { d := dataset.dim, metric := m, xb := [] } },
       Status.success)

/-- `GpuFlatIndexNode::Add` (lines 42-54): appends the tensor rows to the
index; `index_->add` through a null pointer is undefined behaviour. -/
def GpuFlatIndexNode.add (s : GpuFlatIndexNode) (dataset : DataSet) :
    ExecResult GpuFlatIndexNode :=
  match s.index_ with
  | none => ExecResult.nullDeref
  | some idx =>
      ExecResult.ok { index_ := some { idx with xb := idx.xb ++ dataset.tensor } }

/-- Model of a knowhere search result data set (`GenResultDataSet(nq, k,
ids, dis)`): two parallel flat arrays. -/
structure SearchResult where
  nq : Nat
  k : Nat
  ids : List Int
  dis : List Nat
  deriving DecidableEq, Repr

/-- `GpuFlatIndexNode::Search` (lines 56-83).  The node allocates two arrays
of length `k * nq` and asks the external `faiss` backend to fill them; the
backend either throws (any `std::exception`) or writes every slot, so it is
modelled as producing either an error message or the two slot-filling
functions.  On a throw the whole call returns `faiss_inner_error`; on
success the result is built from exactly `k * nq` slots of each array. -/
def GpuFlatIndexNode.search (s : GpuFlatIndexNode) (dataset : DataSet)
    (cfg : Config)
    (backend : FaissIndex → Except String ((Nat → Int) × (Nat → Nat))) :
    ExecResult SearchResult :=
  match s.index_ with
  | none => ExecResult.err Status.empty_index "index not loaded"
  | some idx =>
      let nq := dataset.rows
      let len := cfg.k * nq
      match backend idx with
      | Except.error e => ExecResult.err Status.faiss_inner_error e
      | Except.ok (fid, fdis) =>
          ExecResult.ok
            { nq := nq, k := cfg.k,
              ids := (List.range len).map fid,
              dis := (List.range len).map fdis }

/-- `GpuFlatIndexNode::RangeSearch` (lines 85-88). -/
def GpuFlatIndexNode.rangeSearch (_ : GpuFlatIndexNode) :
    ExecResult SearchResult :=
  ExecResult.err Status.not_implemented ""

/-- `faiss::Index::reconstruct` for a flat index: copies row `id`; an
out-of-range id makes faiss throw. -/
def reconstructRow (idx : FaissIndex) (id : Nat) : Except String (List Nat) :=
  if (id + 1) * idx.d ≤ idx.xb.length then
    Except.ok ((idx.xb.drop (id * idx.d)).take idx.d)
  else Except.error "reconstruct: id out of range"

/-- Helper for `GetVectorByIds`: reconstruct each requested row in order,
propagating the first thrown faiss error. -/
def reconstructAll (idx : FaissIndex) : List Nat → Except String (List Nat)
  | [] => Except.ok []
  | id :: rest =>
      match reconstructRow idx id with
      | Except.error e => Except.error e
      | Except.ok row =>
          match reconstructAll idx rest with
          | Except.error e => Except.error e
          | Except.ok out => Except.ok (row ++ out)

/-- `GpuFlatIndexNode::GetVectorByIds` (lines 90-107): unlike `Search` there
is no `!index_` guard; `index_->reconstruct` runs only inside the
per-row loop, so with no index loaded a request for at least one row
dereferences the null `index_` pointer (undefined behaviour, not a typed
error) while a zero-row request runs no iteration and returns the empty
result normally; with an index present, a faiss throw is converted to
`faiss_inner_error`. -/
def GpuFlatIndexNode.getVectorByIds (s : GpuFlatIndexNode)
    (dataset : DataSet) : ExecResult (List Nat) :=
  match s.index_ with
  | none =>
      if dataset.rows = 0 then ExecResult.ok [] else ExecResult.nullDeref
  | some idx =>
      match reconstructAll idx (dataset.ids.take dataset.rows) with
      | Except.error e => ExecResult.err Status.faiss_inner_error e
      | Except.ok xq => ExecResult.ok xq

/-- `GpuFlatIndexNode::Serialize` (lines 114-131): fails with `empty_index`
on a null index, otherwise appends exactly one entry named `Type()` holding
the written index. -/
def GpuFlatIndexNode.serialize (s : GpuFlatIndexNode) (binset : BinarySet) :
    Status × BinarySet :=
  match s.index_ with
  | none => (Status.empty_index, binset)
  | some idx =>
      (Status.success, binarySetAppend binset s.type (writeIndex idx))

/-- `GpuFlatIndexNode::Deserialize` (lines 133-155): a missing entry named
`Type()` yields `invalid_binary_set`; a throw from `faiss::read_index` (or
the GPU clone) is caught and yields `faiss_inner_error`, leaving `index_`
untouched; on success the read index replaces `index_`. -/
def GpuFlatIndexNode.deserialize (s : GpuFlatIndexNode) (binset : BinarySet) :
    GpuFlatIndexNode × Status :=
  match getByName binset s.type with
  | none => (s, Status.invalid_binary_set)
  | some blob =>
      match readIndex blob with
      | Except.error _ => (s, Status.faiss_inner_error)
      | Except.ok idx => ({ index_ := some idx }, Status.success)

/-! ### Graph Index Engine (NSG)

The graph engine's implementation is not part of the visible source (only
the `write_index`/`read_index` declarations in `NSGIO.h` are), so the
definitions below are modelled from the spec, §4.4 and §6. -/

/-- Squared L2 distance between two vectors (coordinates as naturals). -/
def sqDist (a b : List Nat) : Nat :=
  (a.zip b).foldl
    (fun acc p => acc + (max p.1 p.2 - min p.1 p.2) * (max p.1 p.2 - min p.1 p.2)) 0

/-- Modelled from the spec: the approximate centroid of the vector set,
coordinate-wise mean with integer division. -/
def centroid (vs : List (List Nat)) : List Nat :=
  (List.range (vs.headD []).length).map
    (fun j => (vs.map (fun v => v.getD j 0)).sum / vs.length)

/-- Index in `[0, n)` minimising `f`, ties to the smaller index. -/
def argminIdx (f : Nat → Nat) (n : Nat) : Nat :=
  (List.range n).foldl (fun b i => if f i < f b then i else b) 0

/-- Element of a list minimising `f` (head-biased on ties; `0` if empty). -/
def argminList (f : Nat → Nat) : List Nat → Nat
  | [] => 0
  | x :: xs => xs.foldl (fun b i => if f i < f b then i else b) x

/-- Insert into a list kept sorted by ascending key. -/
def insertSorted (key : Nat → Nat) (x : Nat) : List Nat → List Nat
  | [] => [x]
  | y :: ys => if key x < key y then x :: y :: ys else y :: insertSorted key x ys

/-- Sort a list of node ids by ascending key. -/
def sortByKey (key : Nat → Nat) (l : List Nat) : List Nat :=
  l.foldr (insertSorted key) []

/-- Distance between stored vectors `i` and `j` during build. -/
def buildDist (vs : List (List Nat)) (i j : Nat) : Nat :=
  sqDist (vs.getD i []) (vs.getD j [])

/-- Modelled from the spec: the candidate neighbour pool for node `i`:
all other nodes ordered by distance to `i`, truncated to `L` (brute force,
per spec step 2's small-`n` branch). -/
def candidatePool (vs : List (List Nat)) (i L : Nat) : List Nat :=
  (sortByKey (buildDist vs i) ((List.range vs.length).filter (fun j => j ≠ i))).take L

/-- Modelled from the spec: MRNG-style pruning (spec step 3): scan the
candidates in ascending distance order and accept `c` only while fewer than
`R` neighbours are accepted and no already-accepted `p` dominates `c`
(i.e. `dist p c < dist i c`). -/
def mrngPrune (dist : Nat → Nat → Nat) (i R : Nat) (cands : List Nat) : List Nat :=
  cands.foldl
    (fun acc c =>
      if acc.length < R then
        if acc.all (fun p => decide (dist i c ≤ dist p c)) then acc ++ [c] else acc
      else acc) []

/-- One breadth step of the traversal: add every neighbour of every node of
the current set, skipping duplicates. -/
def expandOnce (g : List (List Nat)) (s : List Nat) : List Nat :=
  s.foldl
    (fun acc v =>
      (g.getD v []).foldl (fun a w => if w ∈ a then a else a ++ [w]) acc) s

/-- The set of nodes a traversal from `nav` over directed edges visits:
`n` breadth steps saturate any path in an `n`-node graph. -/
def reachSet (g : List (List Nat)) (nav : Nat) : List Nat :=
  (expandOnce g)^[g.length] [nav]

/-- Directed reachability from `src` in adjacency list `g`. -/
inductive Reachable (g : List (List Nat)) (src : Nat) : Nat → Prop
  | refl : Reachable g src src
  | step {u w : Nat} : Reachable g src u → w ∈ g.getD u [] → Reachable g src w

/-- Nodes the traversal from `nav` does not visit. -/
def unreachedNodes (g : List (List Nat)) (nav : Nat) : List Nat :=
  (List.range g.length).filter (fun v => decide (v ∉ reachSet g nav))

/-- Modelled from the spec: link an unreached node `u` from node `r`,
respecting the `R` cap by evicting `r`'s currently-weakest (last, i.e.
farthest) edge when full (spec step 4). -/
def addRepairEdge (g : List (List Nat)) (r u R : Nat) : List (List Nat) :=
  let nbrs := g.getD r []
  g.set r (if nbrs.length < R then nbrs ++ [u] else nbrs.dropLast ++ [u])

/-- Modelled from the spec: the connectivity-repair loop (spec step 4):
while some node is unreached, link the first such node from the nearest
already-reached node, and repeat; a fuel bound makes the recursion total,
exhaustion reporting build failure. -/
def repairLoop (dist : Nat → Nat → Nat) (R nav : Nat) :
    Nat → List (List Nat) → Option (List (List Nat))
  | 0, g => if unreachedNodes g nav = [] then some g else none
  | fuel + 1, g =>
      match unreachedNodes g nav with
      | [] => some g
      | u :: _ =>
          let r := argminList (fun x => dist x u) (reachSet g nav)
          repairLoop dist R nav fuel (addRepairEdge g r u R)

/-- The NSG graph index: out-degree bound, navigation node, adjacency. -/
structure NsgIndex where
  out_degree : Nat
  nav : Nat
  graph : List (List Nat)
  deriving DecidableEq, Repr

/-- Modelled from the spec: `NsgIndex` Build (spec §4.4 steps 1-4): pick the
navigation node nearest the centroid, give every node an MRNG-pruned
candidate pool of at most `R` neighbours, then repair connectivity from the
navigation node.  Degenerate parameters (no vectors, zero out-degree) are
rejected, per `InvalidParameter` in §4.1. -/
def NsgIndex.build (vs : List (List Nat)) (R L : Nat) : Option NsgIndex :=
  if vs.length = 0 ∨ R = 0 then none
  else
    let n := vs.length
    let dist := buildDist vs
    let c := centroid vs
    let nav := argminIdx (fun i => sqDist (vs.getD i []) c) n
    let g0 := (List.range n).map (fun i => mrngPrune dist i R (candidatePool vs i L))
    match repairLoop dist R nav n g0 with
    | none => none
    | some g => some { out_degree := R, nav := nav, graph := g }

/-- Encode the adjacency lists in id order: per node a neighbour count then
that many neighbour ids. -/
def encodeNodes (g : List (List Nat)) : List Nat :=
  g.foldr (fun nbrs acc => (nbrs.length :: nbrs) ++ acc) []

/-- Modelled from the spec: `impl::write_index` (NSGIO.h): fixed field order
`R`, `n`, navigation id, then per node in id order a neighbour count
followed by that many neighbour ids (spec §4.4 / §6). -/
def serializeNsg (i : NsgIndex) : List Nat :=
  i.out_degree :: i.graph.length :: i.nav :: encodeNodes i.graph

/-- Parse `k` per-node records, validating `count ≤ R` and every neighbour
id `< n`; any malformed or out-of-range record is `invalid_binary_set`. -/
def parseNodes (R n : Nat) : Nat → List Nat → Except Status (List (List Nat))
  | 0, rest => if rest = [] then Except.ok [] else Except.error Status.invalid_binary_set
  | _ + 1, [] => Except.error Status.invalid_binary_set
  | k + 1, c :: rest =>
      if c ≤ R then
        if c ≤ rest.length then
          if (rest.take c).all (fun x => decide (x < n)) then
            match parseNodes R n k (rest.drop c) with
            | Except.ok gs => Except.ok ((rest.take c) :: gs)
            | Except.error e => Except.error e
          else Except.error Status.invalid_binary_set
        else Except.error Status.invalid_binary_set
      else Except.error Status.invalid_binary_set

/-- Modelled from the spec: `impl::read_index` (NSGIO.h): read the header,
validate `navigation id < n` and every neighbour id `< n`, failing with
`invalid_binary_set` otherwise (spec §4.4). -/
def deserializeNsg : List Nat → Except Status NsgIndex
  | R :: n :: nav :: rest =>
      if nav < n then
        match parseNodes R n n rest with
        | Except.ok g => Except.ok { out_degree := R, nav := nav, graph := g }
        | Except.error e => Except.error e
      else Except.error Status.invalid_binary_set
  | _ => Except.error Status.invalid_binary_set

/-! ### Concrete fixtures used by witnesses and counterexamples -/

/-- A small already-loaded flat index: 2 two-dimensional vectors. -/
def idxEx : FaissIndex :=
  { d := 2, metric := MetricType.L2, xb := [1, 2, 3, 4] }

/-- A node in the `Searchable` state holding `idxEx`. -/
def loadedNode : GpuFlatIndexNode := { index_ := some idxEx }

/-- A node in the `Empty` state (`index_` null, as after the constructor). -/
def emptyNode : GpuFlatIndexNode := { index_ := none }

/-- A tiny query data set: one row, two columns, one requested id. -/
def dsEx : DataSet := { rows := 1, dim := 2, tensor := [5, 6], ids := [0] }

/-- A data set requesting zero rows. -/
def dsZero : DataSet := { rows := 0, dim := 2, tensor := [], ids := [] }

/-- A config requesting the L2 metric and `k = 2`. -/
def cfgL2 : Config := { metric_type := "L2", k := 2 }

/-- A config requesting an unsupported metric. -/
def cfgBad : Config := { metric_type := "JACCARD", k := 2 }

/-- A backend call that always succeeds, filling every slot. -/
def okBackend (_ : FaissIndex) : Except String ((Nat → Int) × (Nat → Nat)) :=
  Except.ok (fun i => (i : Int), fun _ => 0)

/-- A backend call that always throws. -/
def throwBackend (_ : FaissIndex) : Except String ((Nat → Int) × (Nat → Nat)) :=
  Except.error "CUDA error"

/-- Three 1-dimensional vectors used to exercise `NsgIndex.build`. -/
def vsEx : List (List Nat) := [[0], [1], [2]]

/-- The index `NsgIndex.build vsEx 2 2` produces. -/
def nsgIdxEx : NsgIndex := { out_degree := 2, nav := 1, graph := [[1], [2, 0], [1]] }

/-- Well-formedness of an `n`-node adjacency list with out-degree cap `R`:
exactly `n` per-node lists, each holding at most `R` neighbour ids, all of
them in range. -/
def WfGraph (n R : Nat) (g : List (List Nat)) : Prop :=
  g.length = n ∧ ∀ nbrs ∈ g, nbrs.length ≤ R ∧ ∀ x ∈ nbrs, x < n

/-!  ## Theorems  -/

/-- C5: `Search` on an index that is not `Searchable` (no index trained or
loaded, `index_` null) returns the `empty_index` error, not a result. -/
theorem search_requires_index (s : GpuFlatIndexNode) (ds : DataSet) (cfg : Config)
    (backend : FaissIndex → Except String ((Nat → Int) × (Nat → Nat)))
    (h : s.index_ = none) :
    s.search ds cfg backend = ExecResult.err Status.empty_index "index not loaded" := by
  simp [GpuFlatIndexNode.search, h]

/-- Witness for C5 at the freshly-constructed node. -/
theorem search_requires_index_witness :
    emptyNode.search dsEx cfgL2 okBackend =
      ExecResult.err Status.empty_index "index not loaded" :=
  search_requires_index emptyNode dsEx cfgL2 okBackend rfl

/-- C6: a failing backend search makes the whole call return
`faiss_inner_error`; a successful call returns complete `nq*k` arrays, never
a partially filled result. -/
theorem search_no_partial_fill (s : GpuFlatIndexNode) (ds : DataSet) (cfg : Config)
    (backend : FaissIndex → Except String ((Nat → Int) × (Nat → Nat))) :
    (∀ idx msg, s.index_ = some idx → backend idx = Except.error msg →
        s.search ds cfg backend = ExecResult.err Status.faiss_inner_error msg) ∧
    (∀ r, s.search ds cfg backend = ExecResult.ok r →
        r.ids.length = r.nq * r.k ∧ r.dis.length = r.nq * r.k) := by
  constructor
  · intro idx msg hidx hbk
    simp [GpuFlatIndexNode.search, hidx, hbk]
  · intro r hr
    cases hs : s.index_ with
    | none => simp [GpuFlatIndexNode.search, hs] at hr
    | some idx =>
        cases hbk : backend idx with
        | error e => simp [GpuFlatIndexNode.search, hs, hbk] at hr
        | ok p =>
            obtain ⟨fid, fdis⟩ := p
            simp [GpuFlatIndexNode.search, hs, hbk] at hr
            subst hr
            simp [Nat.mul_comm]

/-- Witness for C6, exercising both the throwing and succeeding backend. -/
theorem search_no_partial_fill_witness :
    loadedNode.search dsEx cfgL2 throwBackend =
      ExecResult.err Status.faiss_inner_error "CUDA error" ∧
    ({ nq := 1, k := 2, ids := [0, 1], dis := [0, 0] } : SearchResult).ids.length = 1 * 2 :=
  ⟨(search_no_partial_fill loadedNode dsEx cfgL2 throwBackend).1 idxEx "CUDA error" rfl rfl,
   ((search_no_partial_fill loadedNode dsEx cfgL2 okBackend).2
      { nq := 1, k := 2, ids := [0, 1], dis := [0, 0] } rfl).1⟩

/-- C7: `Train` with an unsupported metric fails with the invalid-metric
status and the backend stays `Empty` (when it was `Empty`); with a supported
metric it succeeds and installs a fresh index (the `Trained` state). -/
theorem train_metric_validation (s : GpuFlatIndexNode) (ds : DataSet) (cfg : Config)
    (h : s.index_ = none) :
    (∀ e, Str2FaissMetricType cfg.metric_type = Except.error e →
        (s.train ds cfg).1.index_ = none ∧
        (s.train ds cfg).2 = Status.invalid_metric_type) ∧
    (∀ m, Str2FaissMetricType cfg.metric_type = Except.ok m →
        (s.train ds cfg).1.index_ = some { d := ds.dim, metric := m, xb := [] } ∧
        (s.train ds cfg).2 = Status.success) := by
  constructor
  · intro e he
    have hinv : e = Status.invalid_metric_type := by
      unfold Str2FaissMetricType at he
      split at he
      · cases he
      · split at he
        · cases he
        · cases he; rfl
    subst hinv
    simp [GpuFlatIndexNode.train, he, h]
  · intro m hm
    simp [GpuFlatIndexNode.train, hm]

/-- Witness for C7, at an unsupported and at a supported metric. -/
theorem train_metric_validation_witness :
    ((emptyNode.train dsEx cfgBad).1.index_ = none ∧
      (emptyNode.train dsEx cfgBad).2 = Status.invalid_metric_type) ∧
    ((emptyNode.train dsEx cfgL2).1.index_ =
        some { d := 2, metric := MetricType.L2, xb := [] } ∧
      (emptyNode.train dsEx cfgL2).2 = Status.success) :=
  ⟨(train_metric_validation emptyNode dsEx cfgBad rfl).1 Status.invalid_metric_type rfl,
   (train_metric_validation emptyNode dsEx cfgL2 rfl).2 MetricType.L2 rfl⟩

/-- C8: `Serialize` on the `Empty` state fails with `empty_index` and leaves
the binary set untouched; on a loaded index it appends exactly one entry,
named by the index type. -/
theorem serialize_empty_or_single_entry (s : GpuFlatIndexNode) (b : BinarySet) :
    (s.index_ = none → s.serialize b = (Status.empty_index, b)) ∧
    (∀ idx, s.index_ = some idx →
        s.serialize b = (Status.success, b ++ [(s.type, writeIndex idx)])) := by
  constructor
  · intro h
    simp [GpuFlatIndexNode.serialize, h]
  · intro idx h
    simp [GpuFlatIndexNode.serialize, binarySetAppend, h]

/-- Witness for C8 in the `Empty` and in the loaded state. -/
theorem serialize_empty_or_single_entry_witness :
    emptyNode.serialize [] = (Status.empty_index, []) ∧
    loadedNode.serialize [] =
      (Status.success, [(INDEX_FAISS_GPU_IDMAP, writeIndex idxEx)]) :=
  ⟨(serialize_empty_or_single_entry emptyNode []).1 rfl,
   (serialize_empty_or_single_entry loadedNode []).2 idxEx rfl⟩

/-- C9: a successful `Search` over `nq` queries requesting `k` neighbours
returns two parallel flat arrays of length `nq*k` (ids and distances),
row-major by query. -/
theorem search_result_shape (s : GpuFlatIndexNode) (ds : DataSet) (cfg : Config)
    (backend : FaissIndex → Except String ((Nat → Int) × (Nat → Nat)))
    (r : SearchResult) (h : s.search ds cfg backend = ExecResult.ok r) :
    r.nq = ds.rows ∧ r.k = cfg.k ∧
    r.ids.length = ds.rows * cfg.k ∧ r.dis.length = ds.rows * cfg.k := by
  cases hs : s.index_ with
  | none => simp [GpuFlatIndexNode.search, hs] at h
  | some idx =>
      cases hbk : backend idx with
      | error e => simp [GpuFlatIndexNode.search, hs, hbk] at h
      | ok p =>
          obtain ⟨fid, fdis⟩ := p
          simp [GpuFlatIndexNode.search, hs, hbk] at h
          subst h
          simp [Nat.mul_comm]

/-- Witness for C9 on a one-row batch with `k = 2`. -/
theorem search_result_shape_witness :
    (1 : Nat) = dsEx.rows ∧ (2 : Nat) = cfgL2.k ∧
    ([0, 1] : List Int).length = dsEx.rows * cfgL2.k ∧
    ([0, 0] : List Nat).length = dsEx.rows * cfgL2.k :=
  search_result_shape loadedNode dsEx cfgL2 okBackend
    { nq := 1, k := 2, ids := [0, 1], dis := [0, 0] } rfl

/-- C10 counterexample: on an untrained node, a zero-row `GetVectorByIds`
call executes no loop iteration, so it does not dereference the null
`index_` pointer: it returns a typed success (flat_gpu.cc lines 96-102),
refuting the claim's universally quantified dereference. -/
theorem get_vector_by_ids_zero_rows_typed_return :
    emptyNode.getVectorByIds dsZero = ExecResult.ok [] ∧
    emptyNode.getVectorByIds dsZero ≠ ExecResult.nullDeref :=
  ⟨rfl, by decide⟩

/-- C10 (amended): `GetVectorByIds` performs no empty-index guard: with no
index loaded, every call requesting at least one row dereferences the null
`index_` pointer inside the per-row loop (undefined behaviour), and no
typed error return — in particular no `empty_index` — is reachable on the
untrained path. -/
theorem get_vector_by_ids_unguarded (s : GpuFlatIndexNode) (ds : DataSet)
    (h : s.index_ = none) :
    (0 < ds.rows → s.getVectorByIds ds = ExecResult.nullDeref) ∧
    ∀ st msg, s.getVectorByIds ds ≠ ExecResult.err st msg := by
  constructor
  · intro hrows
    simp [GpuFlatIndexNode.getVectorByIds, h, Nat.pos_iff_ne_zero.mp hrows]
  · intro st msg hc
    by_cases hr : ds.rows = 0
    · simp [GpuFlatIndexNode.getVectorByIds, h, hr] at hc
    · simp [GpuFlatIndexNode.getVectorByIds, h, hr] at hc

/-- Witness for the amended C10 at the freshly-constructed node and a
one-row request. -/
theorem get_vector_by_ids_unguarded_witness :
    emptyNode.getVectorByIds dsEx = ExecResult.nullDeref ∧
    emptyNode.getVectorByIds dsEx ≠
      ExecResult.err Status.empty_index "index not loaded" :=
  ⟨(get_vector_by_ids_unguarded emptyNode dsEx rfl).1 (by decide),
   (get_vector_by_ids_unguarded emptyNode dsEx rfl).2 Status.empty_index "index not loaded"⟩

/-- C3 counterexample: on a node holding a previously loaded index, a failed
`Deserialize` (here: an empty binary set) leaves the stale index observable
— the state is not `Empty`, and a subsequent `Search` succeeds on the old
index instead of failing with `empty_index`. -/
theorem deserialize_failure_leaves_stale_index :
    (loadedNode.deserialize []).2 = Status.invalid_binary_set ∧
    (loadedNode.deserialize []).1.index_ ≠ none ∧
    (loadedNode.deserialize []).1.search dsEx cfgL2 okBackend =
      ExecResult.ok { nq := 1, k := 2, ids := [0, 1], dis := [0, 0] } :=
  ⟨rfl, by decide, rfl⟩

/-- C3 (amended): a failed `Deserialize` or `Train` leaves the node's state
exactly as it was — an `Empty` node stays `Empty`, but a previously loaded
index is kept, not reset to `Empty`. -/
theorem failed_mutation_keeps_state (s : GpuFlatIndexNode) (b : BinarySet)
    (ds : DataSet) (cfg : Config) :
    ((s.deserialize b).2 ≠ Status.success → (s.deserialize b).1 = s) ∧
    ((s.train ds cfg).2 ≠ Status.success → (s.train ds cfg).1 = s) := by
  constructor
  · intro h
    cases hb : getByName b s.type with
    | none => simp [GpuFlatIndexNode.deserialize, hb]
    | some blob =>
        cases hr : readIndex blob with
        | error e => simp [GpuFlatIndexNode.deserialize, hb, hr]
        | ok idx =>
            exact absurd (by simp [GpuFlatIndexNode.deserialize, hb, hr]) h
  · intro h
    cases hm : Str2FaissMetricType cfg.metric_type with
    | error e => simp [GpuFlatIndexNode.train, hm]
    | ok m => exact absurd (by simp [GpuFlatIndexNode.train, hm]) h

/-- Witness for the amended C3: a failing deserialize and a failing train on
the loaded node leave it unchanged. -/
theorem failed_mutation_keeps_state_witness :
    (loadedNode.deserialize []).1 = loadedNode ∧
    (loadedNode.train dsEx cfgBad).1 = loadedNode :=
  ⟨(failed_mutation_keeps_state loadedNode [] dsEx cfgBad).1 (by decide),
   (failed_mutation_keeps_state loadedNode [] dsEx cfgBad).2 (by decide)⟩

/-- C4 counterexample: a binary set holding a correctly named but malformed
payload makes `Deserialize` fail with `faiss_inner_error` (the wrapped
backend error), not with `invalid_binary_set` as the claim states. -/
theorem deserialize_malformed_gives_backend_error :
    emptyNode.deserialize [(INDEX_FAISS_GPU_IDMAP, [])] =
      (emptyNode, Status.faiss_inner_error) ∧
    Status.faiss_inner_error ≠ Status.invalid_binary_set :=
  ⟨rfl, by decide⟩

/-! ### Helper lemmas about the traversal and the repair loop -/

/-- Members of the duplicate-skipping accumulation come from the initial
accumulator or from the traversed list. -/
theorem mem_of_foldl_insert (l : List Nat) :
    ∀ (a : List Nat) (x : Nat),
      x ∈ l.foldl (fun b w => if w ∈ b then b else b ++ [w]) a → x ∈ a ∨ x ∈ l := by
  induction l with
  | nil => exact fun a x h => Or.inl h
  | cons w l ih =>
      intro a x h
      rw [List.foldl_cons] at h
      rcases ih _ x h with h1 | h1
      · by_cases hw : w ∈ a
        · rw [if_pos hw] at h1
          exact Or.inl h1
        · rw [if_neg hw] at h1
          rcases List.mem_append.mp h1 with h2 | h2
          · exact Or.inl h2
          · simp only [List.mem_singleton] at h2
            subst h2
            exact Or.inr (List.mem_cons_self _ _)
      · exact Or.inr (List.mem_cons_of_mem _ h1)

/-- Members accumulated while expanding the nodes of `l` come from the
accumulator or are a neighbour of some node of `l`. -/
theorem mem_of_foldl_expand (g : List (List Nat)) (l : List Nat) :
    ∀ (a : List Nat) (x : Nat),
      x ∈ l.foldl
            (fun acc v => (g.getD v []).foldl (fun b w => if w ∈ b then b else b ++ [w]) acc)
            a →
      x ∈ a ∨ ∃ u, u ∈ l ∧ x ∈ g.getD u [] := by
  induction l with
  | nil => exact fun a x h => Or.inl h
  | cons v l ih =>
      intro a x h
      rw [List.foldl_cons] at h
      rcases ih _ x h with h1 | ⟨u, hu, hx⟩
      · rcases mem_of_foldl_insert _ _ _ h1 with h2 | h2
        · exact Or.inl h2
        · exact Or.inr ⟨v, List.mem_cons_self _ _, h2⟩
      · exact Or.inr ⟨u, List.mem_cons_of_mem _ hu, hx⟩

/-- Every node the iterated breadth expansion collects is reachable over
directed edges from any source whose seed set is reachable. -/
theorem reachable_of_mem_iterate (g : List (List Nat)) (src : Nat) :
    ∀ (k : Nat) (s : List Nat), (∀ y ∈ s, Reachable g src y) →
      ∀ x ∈ (expandOnce g)^[k] s, Reachable g src x := by
  intro k
  induction k with
  | zero => exact fun s hs x hx => hs x hx
  | succ k ih =>
      intro s hs x hx
      rw [Function.iterate_succ_apply] at hx
      refine ih (expandOnce g s) ?_ x hx
      intro y hy
      rcases mem_of_foldl_expand g s s y hy with h1 | ⟨u, hu, hyu⟩
      · exact hs y h1
      · exact Reachable.step (hs u hu) hyu

/-- Soundness of the traversal set: membership implies directed
reachability from the navigation node. -/
theorem reachSet_sound (g : List (List Nat)) (nav x : Nat)
    (h : x ∈ reachSet g nav) : Reachable g nav x := by
  refine reachable_of_mem_iterate g nav g.length [nav] ?_ x h
  intro y hy
  rw [List.mem_singleton] at hy
  subst hy
  exact Reachable.refl

/-- A successful repair loop ends with no unreached node and preserves the
node count. -/
theorem repairLoop_eq_some (dist : Nat → Nat → Nat) (R nav : Nat) :
    ∀ (fuel : Nat) (g g' : List (List Nat)),
      repairLoop dist R nav fuel g = some g' →
      unreachedNodes g' nav = [] ∧ g'.length = g.length := by
  intro fuel
  induction fuel with
  | zero =>
      intro g g' h
      unfold repairLoop at h
      split at h
      · next hc => injection h with h; subst h; exact ⟨hc, rfl⟩
      · cases h
  | succ fuel ih =>
      intro g g' h
      unfold repairLoop at h
      split at h
      · next hc => injection h with h; subst h; exact ⟨hc, rfl⟩
      · next u rest hc =>
          obtain ⟨h1, h2⟩ := ih _ _ h
          refine ⟨h1, ?_⟩
          rw [h2]
          simp [addRepairEdge]

/-- With no unreached node, the traversal from the navigation node visits
every node id. -/
theorem all_reach_of_unreached_nil (g : List (List Nat)) (nav : Nat)
    (h : unreachedNodes g nav = []) : ∀ v, v < g.length → v ∈ reachSet g nav := by
  intro v hv
  by_contra hnv
  have hmem : v ∈ unreachedNodes g nav := by
    unfold unreachedNodes
    rw [List.mem_filter]
    exact ⟨List.mem_range.mpr hv, by simpa using hnv⟩
  rw [h] at hmem
  cases hmem

/-- Unfolding of a successful `NsgIndex.build` into its components. -/
theorem build_eq_some (vs : List (List Nat)) (R L : Nat) (i : NsgIndex)
    (hb : NsgIndex.build vs R L = some i) :
    ¬(vs.length = 0 ∨ R = 0) ∧
    i.out_degree = R ∧
    i.nav = argminIdx (fun j => sqDist (vs.getD j []) (centroid vs)) vs.length ∧
    repairLoop (buildDist vs) R i.nav vs.length
        ((List.range vs.length).map
          (fun j => mrngPrune (buildDist vs) j R (candidatePool vs j L))) = some i.graph := by
  simp only [NsgIndex.build] at hb
  split at hb
  · cases hb
  · next hcond =>
      split at hb
      · cases hb
      · next g heq =>
          injection hb with hb
          subst hb
          exact ⟨hcond, rfl, rfl, heq⟩

/-- C1: for every Vector Set with `n ≥ 2` and valid out-degree `R ≥ 1`,
after a successful Build the graph spans all `n` nodes and the traversal
from the navigation node visits every node, i.e. every node is reachable
from the navigation node via directed edges. -/
theorem nsg_build_connected (vs : List (List Nat)) (R L : Nat) (i : NsgIndex)
    (hn : 2 ≤ vs.length) (hR : 1 ≤ R) (hb : NsgIndex.build vs R L = some i) :
    i.graph.length = vs.length ∧
    ∀ v, v < i.graph.length →
      v ∈ reachSet i.graph i.nav ∧ Reachable i.graph i.nav v := by
  obtain ⟨-, -, -, hrep⟩ := build_eq_some vs R L i hb
  obtain ⟨hnil, hlen⟩ := repairLoop_eq_some _ _ _ _ _ _ hrep
  have hlen' : i.graph.length = vs.length := by simpa using hlen
  refine ⟨hlen', ?_⟩
  intro v hv
  have hmem := all_reach_of_unreached_nil _ _ hnil v hv
  exact ⟨hmem, reachSet_sound _ _ _ hmem⟩

/-- Witness for C1 on three 1-dimensional vectors with `R = 2`. -/
theorem nsg_build_connected_witness :
    nsgIdxEx.graph.length = vsEx.length ∧
    (0 ∈ reachSet nsgIdxEx.graph nsgIdxEx.nav ∧
      Reachable nsgIdxEx.graph nsgIdxEx.nav 0) :=
  ⟨(nsg_build_connected vsEx 2 2 nsgIdxEx (by decide) (by decide) (by decide)).1,
   (nsg_build_connected vsEx 2 2 nsgIdxEx (by decide) (by decide) (by decide)).2
     0 (by decide)⟩

/-! ### Helper lemmas about well-formedness of built graphs -/

/-- Elements of `l.set r v` are `v` or elements of `l`. -/
theorem mem_of_mem_set {α : Type} : ∀ (l : List α) (r : Nat) (v x : α),
    x ∈ l.set r v → x = v ∨ x ∈ l := by
  intro l
  induction l with
  | nil => intro r v x h; simp at h
  | cons y l ih =>
      intro r v x h
      cases r with
      | zero =>
          rcases List.mem_cons.mp h with h1 | h1
          · exact Or.inl h1
          · exact Or.inr (List.mem_cons_of_mem _ h1)
      | succ r =>
          rcases List.mem_cons.mp h with h1 | h1
          · exact Or.inr (h1 ▸ List.mem_cons_self _ _)
          · rcases ih r v x h1 with h2 | h2
            · exact Or.inl h2
            · exact Or.inr (List.mem_cons_of_mem _ h2)

/-- The accepting fold of the MRNG pruning keeps at most `R` entries, all
taken from the candidate list. -/
theorem prune_fold_inv (dist : Nat → Nat → Nat) (i R : Nat) (P : Nat → Prop) :
    ∀ (l acc : List Nat), acc.length ≤ R → (∀ x ∈ acc, P x) → (∀ c ∈ l, P c) →
      (l.foldl
        (fun acc c =>
          if acc.length < R then
            if acc.all (fun p => decide (dist i c ≤ dist p c)) then acc ++ [c] else acc
          else acc) acc).length ≤ R ∧
      ∀ x ∈ l.foldl
        (fun acc c =>
          if acc.length < R then
            if acc.all (fun p => decide (dist i c ≤ dist p c)) then acc ++ [c] else acc
          else acc) acc, P x := by
  intro l
  induction l with
  | nil => exact fun acc h1 h2 _ => ⟨h1, h2⟩
  | cons c l ih =>
      intro acc h1 h2 h3
      rw [List.foldl_cons]
      by_cases hlt : acc.length < R
      · rw [if_pos hlt]
        by_cases hall : acc.all (fun p => decide (dist i c ≤ dist p c)) = true
        · rw [if_pos hall]
          refine ih _ ?_ ?_ (fun x hx => h3 x (List.mem_cons_of_mem _ hx))
          · rw [List.length_append, List.length_singleton]
            omega
          · intro x hx
            rcases List.mem_append.mp hx with h4 | h4
            · exact h2 x h4
            · rw [List.mem_singleton] at h4
              subst h4
              exact h3 x (List.mem_cons_self _ _)
        · rw [if_neg hall]
          exact ih _ h1 h2 (fun x hx => h3 x (List.mem_cons_of_mem _ hx))
      · rw [if_neg hlt]
        exact ih _ h1 h2 (fun x hx => h3 x (List.mem_cons_of_mem _ hx))

/-- The pruned neighbour list has at most `R` entries, all candidates. -/
theorem mrngPrune_wf (dist : Nat → Nat → Nat) (i R : Nat) (cands : List Nat) :
    (mrngPrune dist i R cands).length ≤ R ∧
    ∀ x ∈ mrngPrune dist i R cands, x ∈ cands :=
  prune_fold_inv dist i R (fun x => x ∈ cands) cands []
    (Nat.zero_le R) (fun x hx => absurd hx (List.not_mem_nil x)) (fun _ hc => hc)

/-- Elements survive `insertSorted` from the inserted key or the list. -/
theorem mem_insertSorted (key : Nat → Nat) (y : Nat) :
    ∀ (l : List Nat) (x : Nat), x ∈ insertSorted key y l → x = y ∨ x ∈ l := by
  intro l
  induction l with
  | nil =>
      intro x h
      simp [insertSorted] at h
      exact Or.inl h
  | cons z l ih =>
      intro x h
      unfold insertSorted at h
      split at h
      · rcases List.mem_cons.mp h with h1 | h1
        · exact Or.inl h1
        · exact Or.inr h1
      · rcases List.mem_cons.mp h with h1 | h1
        · exact Or.inr (h1 ▸ List.mem_cons_self _ _)
        · rcases ih x h1 with h2 | h2
          · exact Or.inl h2
          · exact Or.inr (List.mem_cons_of_mem _ h2)

/-- Sorting by key preserves membership (one direction suffices). -/
theorem mem_sortByKey (key : Nat → Nat) :
    ∀ (l : List Nat) (x : Nat), x ∈ sortByKey key l → x ∈ l := by
  intro l
  induction l with
  | nil => intro x h; cases h
  | cons y l ih =>
      intro x h
      rcases mem_insertSorted key y _ x h with h1 | h1
      · exact h1 ▸ List.mem_cons_self _ _
      · exact List.mem_cons_of_mem _ (ih x h1)

/-- Candidate pools only hold node ids below `n`. -/
theorem candidatePool_lt (vs : List (List Nat)) (i L x : Nat)
    (h : x ∈ candidatePool vs i L) : x < vs.length := by
  unfold candidatePool at h
  have h1 := List.mem_of_mem_take h
  have h2 := mem_sortByKey _ _ _ h1
  exact List.mem_range.mp (List.mem_filter.mp h2).1

/-- The pruned preliminary graph is well formed. -/
theorem initial_graph_wf (vs : List (List Nat)) (R L : Nat) :
    WfGraph vs.length R
      ((List.range vs.length).map
        (fun j => mrngPrune (buildDist vs) j R (candidatePool vs j L))) := by
  constructor
  · rw [List.length_map, List.length_range]
  · intro nbrs hnbrs
    rw [List.mem_map] at hnbrs
    obtain ⟨j, _, rfl⟩ := hnbrs
    obtain ⟨hlen, hmem⟩ := mrngPrune_wf (buildDist vs) j R (candidatePool vs j L)
    exact ⟨hlen, fun x hx => candidatePool_lt vs j L x (hmem x hx)⟩

/-- Adding a repair edge keeps the graph well formed (for `R ≥ 1` and an
in-range linked node). -/
theorem addRepairEdge_wf (n R : Nat) (g : List (List Nat)) (r u : Nat)
    (hR : 1 ≤ R) (hu : u < n) (hwf : WfGraph n R g) :
    WfGraph n R (addRepairEdge g r u R) := by
  obtain ⟨hlen, hall⟩ := hwf
  constructor
  · simp [addRepairEdge, hlen]
  · intro nbrs hnbrs
    rcases mem_of_mem_set _ _ _ _ hnbrs with h1 | h1
    · subst h1
      by_cases hr : r < g.length
      · have hmem : g.getD r [] ∈ g := by
          rw [List.getD_eq_getElem _ _ hr]
          exact List.getElem_mem hr
        obtain ⟨hl, hb⟩ := hall _ hmem
        split
        · next hlt =>
            constructor
            · rw [List.length_append, List.length_singleton]
              omega
            · intro x hx
              rcases List.mem_append.mp hx with h2 | h2
              · exact hb x h2
              · rw [List.mem_singleton] at h2
                subst h2
                exact hu
        · next hnlt =>
            constructor
            · rw [List.length_append, List.length_dropLast, List.length_singleton]
              omega
            · intro x hx
              rcases List.mem_append.mp hx with h2 | h2
              · exact hb x ((List.dropLast_sublist _).mem h2)
              · rw [List.mem_singleton] at h2
                subst h2
                exact hu
      · have hget : g.getD r [] = [] := by
          rw [List.getD_eq_getElem?_getD, List.getElem?_eq_none (by omega)]
          rfl
        rw [hget]
        rw [if_pos (by simpa using hR)]
        constructor
        · simpa using hR
        · intro x hx
          simp only [List.nil_append, List.mem_singleton] at hx
          subst hx
          exact hu
    · exact hall nbrs h1

/-- A successful repair loop preserves well-formedness. -/
theorem repairLoop_wf (dist : Nat → Nat → Nat) (n R nav : Nat) (hR : 1 ≤ R) :
    ∀ (fuel : Nat) (g g' : List (List Nat)), WfGraph n R g →
      repairLoop dist R nav fuel g = some g' → WfGraph n R g' := by
  intro fuel
  induction fuel with
  | zero =>
      intro g g' hwf h
      unfold repairLoop at h
      split at h
      · injection h with h; subst h; exact hwf
      · cases h
  | succ fuel ih =>
      intro g g' hwf h
      unfold repairLoop at h
      split at h
      · injection h with h; subst h; exact hwf
      · next u rest hc =>
          refine ih _ _ ?_ h
          refine addRepairEdge_wf n R g _ u hR ?_ hwf
          have hu : u ∈ unreachedNodes g nav := by
            rw [hc]
            exact List.mem_cons_self _ _
          have h1 := List.mem_range.mp (List.mem_filter.mp hu).1
          have h2 := hwf.1
          omega

/-- The index in `[0, n)` minimising a key stays below `n`. -/
theorem foldl_min_lt (f : Nat → Nat) (n : Nat) :
    ∀ (l : List Nat) (b : Nat), b < n → (∀ x ∈ l, x < n) →
      l.foldl (fun b i => if f i < f b then i else b) b < n := by
  intro l
  induction l with
  | nil => exact fun b hb _ => hb
  | cons y l ih =>
      intro b hb hl
      rw [List.foldl_cons]
      refine ih _ ?_ (fun x hx => hl x (List.mem_cons_of_mem _ hx))
      split
      · exact hl y (List.mem_cons_self _ _)
      · exact hb

/-- The navigation-node choice is an in-range node id. -/
theorem argminIdx_lt (f : Nat → Nat) (n : Nat) (hn : 0 < n) : argminIdx f n < n := by
  unfold argminIdx
  exact foldl_min_lt f n _ 0 hn (fun x hx => List.mem_range.mp hx)

/-- The writer/reader pair of the flat index round-trips exactly. -/
theorem readIndex_writeIndex (idx : FaissIndex) :
    readIndex (writeIndex idx) = Except.ok idx := by
  obtain ⟨d, m, xb⟩ := idx
  cases m <;> simp [writeIndex, readIndex]

/-- Parsing the encoded adjacency of a well-formed graph recovers it. -/
theorem parseNodes_encodeNodes (R n : Nat) :
    ∀ (g : List (List Nat)),
      (∀ nbrs ∈ g, nbrs.length ≤ R ∧ ∀ x ∈ nbrs, x < n) →
      parseNodes R n g.length (encodeNodes g) = Except.ok g := by
  intro g
  induction g with
  | nil => intro _; rfl
  | cons nbrs g ih =>
      intro hwf
      obtain ⟨hlen, hb⟩ := hwf nbrs (List.mem_cons_self _ _)
      have hrest := fun l hl => hwf l (List.mem_cons_of_mem _ hl)
      show parseNodes R n (g.length + 1) (nbrs.length :: (nbrs ++ encodeNodes g)) = _
      unfold parseNodes
      rw [if_pos hlen]
      rw [if_pos (by rw [List.length_append]; omega)]
      rw [if_pos ?hall]
      case hall =>
        rw [List.take_left, List.all_eq_true]
        intro x hx
        simpa using hb x hx
      rw [List.take_left, List.drop_left, ih hrest]

/-- C2: serialization round-trips.  For any successfully built graph index,
deserializing its serialized form recovers the identical index (navigation
id, node count and per-node neighbour lists, hence neighbour sets); and for
the flat backend, `Deserialize` after `Serialize` restores the loaded index
state exactly. -/
theorem serialize_deserialize_roundtrip :
    (∀ (vs : List (List Nat)) (R L : Nat) (i : NsgIndex),
        NsgIndex.build vs R L = some i →
        deserializeNsg (serializeNsg i) = Except.ok i) ∧
    (∀ (s fresh : GpuFlatIndexNode) (idx : FaissIndex), s.index_ = some idx →
        fresh.deserialize (s.serialize []).2 =
          ({ index_ := some idx }, Status.success)) := by
  constructor
  · intro vs R L i hb
    obtain ⟨hcond, hdeg, hnav, hrep⟩ := build_eq_some vs R L i hb
    push_neg at hcond
    obtain ⟨hn0, hR0⟩ := hcond
    have hn : 0 < vs.length := Nat.pos_of_ne_zero hn0
    have hR : 1 ≤ R := Nat.one_le_iff_ne_zero.mpr hR0
    have hwf := repairLoop_wf (buildDist vs) vs.length R i.nav hR vs.length _ _
      (initial_graph_wf vs R L) hrep
    obtain ⟨hglen, hall⟩ := hwf
    show deserializeNsg
        (i.out_degree :: i.graph.length :: i.nav :: encodeNodes i.graph) = _
    simp only [deserializeNsg]
    rw [if_pos ?hnavlt]
    case hnavlt =>
      rw [hglen, hnav]
      exact argminIdx_lt _ _ hn
    rw [parseNodes_encodeNodes _ _ _ ?hwf2]
    case hwf2 =>
      intro nbrs hm
      obtain ⟨h1, h2⟩ := hall nbrs hm
      rw [hdeg, hglen]
      exact ⟨h1, h2⟩
  · intro s fresh idx h
    have hser : (s.serialize []).2 = [(INDEX_FAISS_GPU_IDMAP, writeIndex idx)] := by
      simp [GpuFlatIndexNode.serialize, binarySetAppend, GpuFlatIndexNode.type, h]
    rw [hser]
    simp [GpuFlatIndexNode.deserialize, getByName, GpuFlatIndexNode.type,
      readIndex_writeIndex]

/-- Witness for C2 on the concrete built graph and the loaded flat node. -/
theorem serialize_deserialize_roundtrip_witness :
    deserializeNsg (serializeNsg nsgIdxEx) = Except.ok nsgIdxEx ∧
    emptyNode.deserialize (loadedNode.serialize []).2 =
      ({ index_ := some idxEx }, Status.success) :=
  ⟨serialize_deserialize_roundtrip.1 vsEx 2 2 nsgIdxEx (by decide),
   serialize_deserialize_roundtrip.2 loadedNode emptyNode idxEx rfl⟩

/-! ### Helper lemmas about parser failures and validation -/

/-- A successful per-node parse yields exactly `k` validated records. -/
theorem parseNodes_ok_props (R n : Nat) :
    ∀ (k : Nat) (l : List Nat) (gs : List (List Nat)),
      parseNodes R n k l = Except.ok gs →
      gs.length = k ∧ ∀ nbrs ∈ gs, nbrs.length ≤ R ∧ ∀ x ∈ nbrs, x < n := by
  intro k
  induction k with
  | zero =>
      intro l gs h
      unfold parseNodes at h
      split at h
      · injection h with h
        subst h
        exact ⟨rfl, fun nbrs hm => absurd hm (List.not_mem_nil nbrs)⟩
      · cases h
  | succ k ih =>
      intro l gs h
      cases l with
      | nil => cases h
      | cons c rest =>
          unfold parseNodes at h
          split at h
          · split at h
            · split at h
              · next h1 h2 h3 =>
                  split at h
                  · next gs' heq =>
                      injection h with h
                      subst h
                      obtain ⟨hk, hrest⟩ := ih _ _ heq
                      constructor
                      · rw [List.length_cons, hk]
                      · intro nbrs hm
                        rcases List.mem_cons.mp hm with h4 | h4
                        · subst h4
                          refine ⟨le_trans (List.length_take_le _ _) h1, ?_⟩
                          intro x hx
                          simpa using List.all_eq_true.mp h3 x hx
                        · exact hrest nbrs h4
                  · cases h
              · cases h
            · cases h
          · cases h

/-- Every failure of the per-node parser is `invalid_binary_set`. -/
theorem parseNodes_error_invalid (R n : Nat) :
    ∀ (k : Nat) (l : List Nat) (e : Status),
      parseNodes R n k l = Except.error e → e = Status.invalid_binary_set := by
  intro k
  induction k with
  | zero =>
      intro l e h
      unfold parseNodes at h
      split at h
      · cases h
      · injection h with h
        exact h.symm
  | succ k ih =>
      intro l e h
      cases l with
      | nil =>
          injection h with h
          exact h.symm
      | cons c rest =>
          unfold parseNodes at h
          split at h
          · split at h
            · split at h
              · split at h
                · cases h
                · next e' heq =>
                    injection h with h
                    subst h
                    exact ih _ _ heq
              · injection h with h; exact h.symm
            · injection h with h; exact h.symm
          · injection h with h; exact h.symm

/-- C4 (amended): `Deserialize` never crashes and classifies failures as
the code does: a binary set lacking the entry named by the index's type
fails with `invalid_binary_set`; a present but malformed payload makes the
caught backend read failure surface as `faiss_inner_error` (not
`invalid_binary_set`); the graph-format reader fails only with
`invalid_binary_set`, and it accepts no blob whose navigation id or
neighbour ids are out of range. -/
theorem deserialize_error_classification :
    (∀ (s : GpuFlatIndexNode) (b : BinarySet), getByName b s.type = none →
        s.deserialize b = (s, Status.invalid_binary_set)) ∧
    (∀ (s : GpuFlatIndexNode) (b : BinarySet) (blob : Blob) (msg : String),
        getByName b s.type = some blob → readIndex blob = Except.error msg →
        s.deserialize b = (s, Status.faiss_inner_error)) ∧
    (∀ (blob : List Nat) (e : Status), deserializeNsg blob = Except.error e →
        e = Status.invalid_binary_set) ∧
    (∀ (blob : List Nat) (i : NsgIndex), deserializeNsg blob = Except.ok i →
        i.nav < i.graph.length ∧
        ∀ nbrs ∈ i.graph, ∀ x ∈ nbrs, x < i.graph.length) := by
  refine ⟨?_, ?_, ?_, ?_⟩
  · intro s b hb
    simp [GpuFlatIndexNode.deserialize, hb]
  · intro s b blob msg hb hr
    simp [GpuFlatIndexNode.deserialize, hb, hr]
  · intro blob e h
    cases blob with
    | nil => injection h with h; exact h.symm
    | cons a t =>
        cases t with
        | nil => injection h with h; exact h.symm
        | cons a2 t2 =>
            cases t2 with
            | nil => injection h with h; exact h.symm
            | cons a3 rest =>
                simp only [deserializeNsg] at h
                split at h
                · split at h
                  · cases h
                  · next e' heq =>
                      injection h with h
                      subst h
                      exact parseNodes_error_invalid _ _ _ _ _ heq
                · injection h with h
                  exact h.symm
  · intro blob i h
    cases blob with
    | nil => cases h
    | cons a t =>
        cases t with
        | nil => cases h
        | cons a2 t2 =>
            cases t2 with
            | nil => cases h
            | cons a3 rest =>
                simp only [deserializeNsg] at h
                split at h
                · next hlt =>
                    split at h
                    · next g heq =>
                        injection h with h
                        subst h
                        obtain ⟨hk, hrest⟩ := parseNodes_ok_props _ _ _ _ _ heq
                        constructor
                        · simpa [hk] using hlt
                        · intro nbrs hm x hx
                          have := (hrest nbrs hm).2 x hx
                          simpa [hk] using this
                    · cases h
                · cases h

/-- Witness for the amended C4: a foreign binary set, a malformed named
payload, a failing graph blob, and an accepted graph blob. -/
theorem deserialize_error_classification_witness :
    emptyNode.deserialize [] = (emptyNode, Status.invalid_binary_set) ∧
    emptyNode.deserialize [(INDEX_FAISS_GPU_IDMAP, [])] =
      (emptyNode, Status.faiss_inner_error) ∧
    Status.invalid_binary_set = Status.invalid_binary_set ∧
    nsgIdxEx.nav < nsgIdxEx.graph.length :=
  ⟨deserialize_error_classification.1 emptyNode [] rfl,
   deserialize_error_classification.2.1 emptyNode [(INDEX_FAISS_GPU_IDMAP, [])] []
     "could not read index header" rfl rfl,
   deserialize_error_classification.2.2.1 [] Status.invalid_binary_set rfl,
   (deserialize_error_classification.2.2.2 (serializeNsg nsgIdxEx) nsgIdxEx rfl).1⟩

end Knowhere
